import Mathlib

/-!
Verification of the deployment-overlap resolution and dataset-priority merge
logic of the OCB-BGC Carbonate Working Group notebooks.

Timestamps are modelled as integers (`Int`); `pandas.NaT` (an absent
`deployEnd`) is modelled as `none`.  Values of data variables are modelled as
`Option Int`, with `none` standing for NaN / missing.
-/

namespace Carbonate

/-- One deployment record from the OOI metadata: `deploymentNumber`,
`deployStart` and `deployEnd` (which may be `NaT`, i.e. `none`, for a
deployment that is still active). -/
structure Deployment where
  deploymentNumber : Nat
  deployStart : Int
  deployEnd : Option Int
deriving DecidableEq, Repr

/-- The per-deployment time bounds computed by `trim_overlaps`: the
deployment's start together with its effective (possibly corrected) end. -/
structure OwnedInterval where
  deploymentNumber : Nat
  start : Int
  effectiveEnd : Option Int
deriving DecidableEq, Repr

/-- The corrected deployment end, embedding
`deployments["deployEnd"][mask] = deployEnd[mask]` with
`mask = deployments["deployEnd"] > deployments["deployStart"].shift(-1)`.
Any comparison against `NaT` is `False` in pandas, so a `none` end is never
replaced and a `none` next start never triggers a replacement. -/
def effEnd (e : Option Int) (nextStart : Int) : Option Int :=
  match e with
  | some ee => if nextStart < ee then some nextStart else some ee
  | none => none

/-- Walk a deployment list already sorted by `deploymentNumber`, replacing each
end that overlaps the next deployment's start (the shifted-column comparison in
`trim_overlaps`).  The last deployment has no successor and keeps its end. -/
def resolveSorted : List Deployment → List OwnedInterval
  | [] => []
  | d :: rest =>
    let e :=
      match rest with
      | [] => d.deployEnd
      | next :: _ => effEnd d.deployEnd next.deployStart
    ⟨d.deploymentNumber, d.deployStart, e⟩ :: resolveSorted rest

/-- Embeds `deployments.sort_values(by="deploymentNumber")` (a stable sort). -/
def sortDeps (deps : List Deployment) : List Deployment :=
  deps.insertionSort (fun a b => a.deploymentNumber ≤ b.deploymentNumber)

/-- The intervals computed by the first half of `trim_overlaps`. -/
def resolveIntervals (deps : List Deployment) : List OwnedInterval :=
  resolveSorted (sortDeps deps)

/-- One sample of a per-deployment dataset: its timestamp, the value of the
`deployment` variable, and a representative data value. -/
structure Sample where
  time : Int
  deployment : Nat
  value : Int
deriving DecidableEq, Repr

/-- Membership of a timestamp in the time range selected by
`ds.sel(time=slice(deployStart, deployEnd))`.  Label-based slicing in
pandas/xarray is inclusive of both endpoints; a `NaT` end bound selects to the
end of the index (`NaT` sorts last in numpy), i.e. is unbounded above. -/
def inOwned (iv : OwnedInterval) (t : Int) : Bool :=
  iv.start ≤ t &&
    match iv.effectiveEnd with
    | some e => t ≤ e
    | none => true

/-- Follows the spec's words, for comparison with `inOwned` only: the spec
(§4.1) asserts the owned interval is half-open, `[deployStart, effectiveEnd)`,
with a sample exactly at `effectiveEnd` excluded. -/
def inOwnedSpec (iv : OwnedInterval) (t : Int) : Bool :=
  iv.start ≤ t &&
    match iv.effectiveEnd with
    | some e => t < e
    | none => true

/-- The ways `trim_overlaps` can fail: `unknownDeployment` models the pandas
`KeyError` raised by `deployments.loc[depNum]` when a deployment number is
absent from the metadata index, and `emptyDataset` models the `IndexError`
raised by `.values[0]` when the dataset carries no samples at all. -/
inductive TrimError where
  | unknownDeployment
  | emptyDataset
deriving DecidableEq, Repr

/-- Embeds `np.unique`: the sorted list of distinct values. -/
def uniqueSorted (l : List Nat) : List Nat :=
  (l.insertionSort (fun a b => a ≤ b)).dedup

/-- Row lookup by deployment number (`deployments.loc[n]` after
`set_index(keys="deploymentNumber")`). -/
def lookupInterval (ivs : List OwnedInterval) (n : Nat) : Option OwnedInterval :=
  ivs.find? (fun iv => iv.deploymentNumber == n)

/-- The selection step of `trim_overlaps`, applied to the resolved intervals
and the dataset's distinct deployment values: `deployments.loc[depNum]` raises
`KeyError` when any deployment value is missing from the metadata index,
`.values[0]` raises `IndexError` when there are no rows, and otherwise the
first (smallest) deployment's bounds select the samples. -/
def trimWith (ds : List Sample) (ivs : List OwnedInterval) (depNums : List Nat) :
    Except TrimError (List Sample) :=
  if depNums.any (fun n => (lookupInterval ivs n).isNone) then
    Except.error TrimError.unknownDeployment
  else
    match depNums with
    | [] => Except.error TrimError.emptyDataset
    | n :: _ =>
      match lookupInterval ivs n with
      | some iv => Except.ok (ds.filter (fun s => inOwned iv s.time))
      | none => Except.error TrimError.unknownDeployment

/-- The `trim_overlaps(ds, deployments)` function of
`scripts/Downloading_Data.ipynb`: resolve the deployment intervals, read the
distinct `deployment` values of the dataset (`np.unique`), look all of them up
in the metadata, take the first row, and select the samples inside that
deployment's time bounds. -/
def trim_overlaps (ds : List Sample) (deps : List Deployment) :
    Except TrimError (List Sample) :=
  trimWith ds (resolveIntervals deps) (uniqueSorted (ds.map (fun s => s.deployment)))

/-! ### The per-method dataset merge of the PCO2A notebook -/

/-- A time-indexed dataset: its time coordinate, the names of its data
variables, and the value of each variable at each time (`none` is NaN). -/
structure MDataset where
  times : List Int
  vars : List String
  val : String → Int → Option Int

/-- The value a dataset contributes at a (variable, timestamp) cell: `none`
when the variable is absent, the timestamp is not on the time index, or the
stored value is NaN. -/
def valAt (d : MDataset) (v : String) (t : Int) : Option Int :=
  if v ∈ d.vars ∧ t ∈ d.times then d.val v t else none

/-- One alignment loop of the notebook
(`for var in donor.variables: if var not in receiver.variables:
receiver[var] = donor[var].broadcast_like(receiver["time"])`):
the receiver gains every variable it lacks, valued by the donor's values
reindexed to the receiver's time index (assignment into an xarray `Dataset`
aligns to the dataset's own indexes, filling NaN off the donor's index). -/
def addMissingVars (receiver donor : MDataset) : MDataset :=
  { times := receiver.times
    vars := receiver.vars ++ donor.vars.filter (fun v => !(v ∈ receiver.vars : Bool))
    val := fun v t => if v ∈ receiver.vars then receiver.val v t else valAt donor v t }

/-- Embeds `a.combine_first(b)`: outer-join the indexes and keep the value of
`a` wherever it is not NaN, filling from `b` elsewhere. -/
def combineFirst (a b : MDataset) : MDataset :=
  { times := a.times ++ b.times.filter (fun t => !(t ∈ a.times : Bool))
    vars := a.vars ++ b.vars.filter (fun v => !(v ∈ a.vars : Bool))
    val := fun v t =>
      match valAt a v t with
      | some x => some x
      | none => valAt b v t }

/-- The notebook's three interpreter bindings `tele_data`, `host_data`,
`inst_data`, which the merge cells assign into in place. -/
structure MergeState where
  tele : MDataset
  host : MDataset
  inst : MDataset

/-- The merge cells of the PCO2A notebook, run in order on the interpreter
state: `host_data` gains `tele_data`'s variables, `tele_data` gains
`host_data`'s variables, `tele_host = tele_data.combine_first(host_data)`,
`inst_data` gains `tele_host`'s variables, `tele_host` gains `inst_data`'s
variables, and finally `data = inst_data.combine_first(tele_host)`.  Returns
the final interpreter state of the three source bindings together with the
merged output. -/
def runMerge (s : MergeState) : MergeState × MDataset :=
  let host1 := addMissingVars s.host s.tele
  let tele1 := addMissingVars s.tele host1
  let teleHost := combineFirst tele1 host1
  let inst1 := addMissingVars s.inst teleHost
  let teleHost1 := addMissingVars teleHost inst1
  (⟨tele1, host1, inst1⟩, combineFirst inst1 teleHost1)

/-- The merged output of the notebook's merge cells. -/
def mergePipeline (tele host inst : MDataset) : MDataset :=
  (runMerge ⟨tele, host, inst⟩).2

/-- Priority choice between cell values: the first one that is defined. -/
def firstDefined (a b : Option Int) : Option Int :=
  match a with
  | some x => some x
  | none => b

/-- Failure mode of the source-priority merger. -/
inductive MergeError where
  | emptySourceSet
deriving DecidableEq, Repr

/-- Modelled from the spec: `combine_datasets` is imported from the external
`ooi_data_explorations.combine_data` package, so its body is not part of this
repository; only its call site appears in `scripts/Downloading_Data.ipynb`.
Per the spec (§4.2), the merger takes the list of collected sources ordered
highest priority first, fails with `EmptySourceSetError` when given zero
sources, and otherwise folds the overlay over the sources in priority order. -/
def combine_datasets : List MDataset → Except MergeError MDataset
  | [] => Except.error MergeError.emptySourceSet
  | s :: rest => Except.ok (rest.foldl combineFirst s)

/-! ### Helper lemmas about the merge -/

theorem valAt_eq_none_of_not_var (d : MDataset) (v : String) (t : Int)
    (h : ¬ v ∈ d.vars) : valAt d v t = none := by
  unfold valAt
  simp [h]

theorem valAt_eq_none_of_not_time (d : MDataset) (v : String) (t : Int)
    (h : ¬ t ∈ d.times) : valAt d v t = none := by
  unfold valAt
  simp [h]

theorem valAt_addMissingVars (r d : MDataset) (v : String) (t : Int) :
    valAt (addMissingVars r d) v t =
      if v ∈ r.vars then valAt r v t
      else if t ∈ r.times then valAt d v t else none := by
  unfold addMissingVars
  by_cases hr : v ∈ r.vars <;> by_cases ht : t ∈ r.times <;> by_cases hd : v ∈ d.vars <;>
    simp [valAt, hr, ht, hd]

theorem valAt_combineFirst (a b : MDataset) (v : String) (t : Int) :
    valAt (combineFirst a b) v t = firstDefined (valAt a v t) (valAt b v t) := by
  unfold combineFirst
  by_cases ha : v ∈ a.vars <;> by_cases hb : v ∈ b.vars <;>
    by_cases ta : t ∈ a.times <;> by_cases tb : t ∈ b.times <;>
      cases hA : a.val v t <;> cases hB : b.val v t <;>
        simp [valAt, firstDefined, ha, hb, ta, tb, hA, hB]

theorem valAt_stageOne (a b : MDataset) (v : String) (t : Int) :
    valAt (combineFirst (addMissingVars a (addMissingVars b a)) (addMissingVars b a)) v t
      = firstDefined (valAt a v t) (valAt b v t) := by
  simp only [valAt_combineFirst, valAt_addMissingVars]
  by_cases hva : v ∈ a.vars <;> by_cases hvb : v ∈ b.vars <;>
    by_cases hta : t ∈ a.times <;> by_cases htb : t ∈ b.times <;>
      cases hA : a.val v t <;> cases hB : b.val v t <;>
        simp [hva, hvb, hta, htb, hA, hB, valAt, firstDefined]

theorem valAt_stageTwo (a b : MDataset) (v : String) (t : Int) :
    valAt (combineFirst (addMissingVars a b) (addMissingVars b (addMissingVars a b))) v t
      = firstDefined (valAt a v t) (valAt b v t) := by
  simp only [valAt_combineFirst, valAt_addMissingVars]
  by_cases hva : v ∈ a.vars <;> by_cases hvb : v ∈ b.vars <;>
    by_cases hta : t ∈ a.times <;> by_cases htb : t ∈ b.times <;>
      cases hA : a.val v t <;> cases hB : b.val v t <;>
        simp [hva, hvb, hta, htb, hA, hB, valAt, firstDefined]

theorem mergePipeline_eq (tele host inst : MDataset) :
    mergePipeline tele host inst =
      combineFirst
        (addMissingVars inst
          (combineFirst (addMissingVars tele (addMissingVars host tele))
            (addMissingVars host tele)))
        (addMissingVars
          (combineFirst (addMissingVars tele (addMissingVars host tele))
            (addMissingVars host tele))
          (addMissingVars inst
            (combineFirst (addMissingVars tele (addMissingVars host tele))
              (addMissingVars host tele)))) := rfl

/-! ### Claim C1 -/

/-- Claim C1 (amended): the merged value at every (variable, timestamp) cell
is the value of the highest-ranked source that defines a non-missing value
there, under the priority ranking actually implemented by the notebook:
`recovered_inst > telemetered > recovered_host` (the notebook computes
`tele_data.combine_first(host_data)` first, so telemetered outranks
recovered_host). -/
theorem mergePipeline_priority (tele host inst : MDataset) (v : String) (t : Int) :
    valAt (mergePipeline tele host inst) v t =
      firstDefined (valAt inst v t) (firstDefined (valAt tele v t) (valAt host v t)) := by
  rw [mergePipeline_eq, valAt_stageTwo, valAt_stageOne]

/-- Claim C1 counterexample: with `recovered_inst` missing a value at a cell
where telemetered holds `1` and `recovered_host` holds `2`, the notebook's
merge yields the telemetered value `1`, while the claimed ranking
`recovered_inst > recovered_host > telemetered` would yield `2`. -/
theorem mergePipeline_priority_cex :
    valAt
        (mergePipeline (⟨[0], ["v"], fun _ _ => some 1⟩ : MDataset)
          (⟨[0], ["v"], fun _ _ => some 2⟩ : MDataset)
          (⟨[0], ["v"], fun _ _ => none⟩ : MDataset)) "v" 0 = some 1
    ∧ firstDefined (valAt (⟨[0], ["v"], fun _ _ => none⟩ : MDataset) "v" 0)
        (firstDefined (valAt (⟨[0], ["v"], fun _ _ => some 2⟩ : MDataset) "v" 0)
          (valAt (⟨[0], ["v"], fun _ _ => some 1⟩ : MDataset) "v" 0)) = some 2
    ∧ (some (1 : Int)) ≠ some 2 := by
  refine ⟨rfl, rfl, by decide⟩

/-! ### Claim C10 -/

/-- Claim C10: the variable-alignment step uses label-aligned broadcasting:
a variable `v` present in the donor and absent from the receiver is added to
the receiver, carrying the donor's value at every receiver timestamp that also
occurs on the donor's time index and a missing value at every other receiver
timestamp; after the pair of alignment loops both datasets expose the same
variable set, namely the union of the two original variable sets. -/
theorem addMissingVars_broadcast (a b : MDataset) (v : String)
    (hv : v ∈ a.vars) (hnv : ¬ v ∈ b.vars) :
    (∀ t, t ∈ b.times →
        valAt (addMissingVars b a) v t = (if t ∈ a.times then a.val v t else none))
    ∧ (∀ w, w ∈ (addMissingVars a (addMissingVars b a)).vars ↔
        w ∈ (addMissingVars b a).vars)
    ∧ (∀ w, w ∈ (addMissingVars b a).vars ↔ (w ∈ a.vars ∨ w ∈ b.vars)) := by
  refine ⟨fun t ht => ?_, fun w => ?_, fun w => ?_⟩
  · rw [valAt_addMissingVars]
    simp [hnv, ht, valAt, hv]
  · simp only [addMissingVars, List.mem_append, List.mem_filter]
    by_cases ha : w ∈ a.vars <;> by_cases hb : w ∈ b.vars <;> simp [ha, hb]
  · simp only [addMissingVars, List.mem_append, List.mem_filter]
    by_cases ha : w ∈ a.vars <;> by_cases hb : w ∈ b.vars <;> simp [ha, hb]

/-- Witness for claim C10 at a concrete input: donor `⟨[0,1], ["x"], t ↦ t⟩`,
receiver `⟨[1,2], ["y"], ↦ 5⟩`; the receiver gains `"x"`, valued by the donor
at the shared timestamp `1`. -/
theorem addMissingVars_broadcast_witness :
    ("x" ∈ (⟨[0, 1], ["x"], fun _ t => some t⟩ : MDataset).vars
      ∧ ¬ "x" ∈ (⟨[1, 2], ["y"], fun _ _ => some 5⟩ : MDataset).vars)
    ∧ valAt
        (addMissingVars (⟨[1, 2], ["y"], fun _ _ => some 5⟩ : MDataset)
          (⟨[0, 1], ["x"], fun _ t => some t⟩ : MDataset)) "x" 1 =
      (if (1 : Int) ∈ (⟨[0, 1], ["x"], fun _ t => some t⟩ : MDataset).times then
        (⟨[0, 1], ["x"], fun _ t => some t⟩ : MDataset).val "x" 1 else none) := by
  refine ⟨⟨by simp, by simp⟩, ?_⟩
  exact (addMissingVars_broadcast (⟨[0, 1], ["x"], fun _ t => some t⟩ : MDataset)
    (⟨[1, 2], ["y"], fun _ _ => some 5⟩ : MDataset) "x" (by simp) (by simp)).1 1 (by simp)

/-! ### Claim C7 -/

/-- Claim C7 (amended): the merge does mutate caller-supplied inputs: the
variable-alignment loops assign missing variables into the source dataset
bindings in place.  In particular, every variable present in `tele_data` and
absent from `host_data` is added to the `host_data` binding during the merge.
(Variables unique to `inst_data` are assigned only into the derived
`tele_host` record, never into `tele_data` or `host_data`.) -/
theorem runMerge_mutates_host (s : MergeState) (v : String)
    (hv : v ∈ s.tele.vars) (hnv : ¬ v ∈ s.host.vars) :
    v ∈ ((runMerge s).1.host).vars ∧ ((runMerge s).1.host).vars ≠ s.host.vars := by
  have h1 : (runMerge s).1.host = addMissingVars s.host s.tele := rfl
  rw [h1]
  constructor
  · simp [addMissingVars, List.mem_append, List.mem_filter, hv, hnv]
  · intro heq
    apply hnv
    rw [← heq]
    simp [addMissingVars, List.mem_append, List.mem_filter, hv, hnv]

/-- Witness for claim C7 (amended) at a concrete input. -/
theorem runMerge_mutates_host_witness :
    ("w" ∈ (⟨[0], ["w"], fun _ _ => some 1⟩ : MDataset).vars
      ∧ ¬ "w" ∈ (⟨[0], ["u"], fun _ _ => some 2⟩ : MDataset).vars)
    ∧ "w" ∈ ((runMerge
        ⟨⟨[0], ["w"], fun _ _ => some 1⟩, ⟨[0], ["u"], fun _ _ => some 2⟩,
          ⟨[0], ["u"], fun _ _ => some 3⟩⟩).1.host).vars := by
  refine ⟨⟨by simp, by simp⟩, ?_⟩
  exact (runMerge_mutates_host
    ⟨⟨[0], ["w"], fun _ _ => some 1⟩, ⟨[0], ["u"], fun _ _ => some 2⟩,
      ⟨[0], ["u"], fun _ _ => some 3⟩⟩ "w" (by simp) (by simp)).1

/-- Claim C7 counterexample: a concrete merge after which the `host_data`
binding carries the variable list `["u", "w"]` although the caller supplied it
with variable list `["u"]` — the input was mutated (variable `"w"` added by
the alignment loop). -/
theorem runMerge_mutates_host_cex :
    ((runMerge
        ⟨⟨[0], ["w"], fun _ _ => some 10⟩, ⟨[0], ["u"], fun _ _ => some 20⟩,
          ⟨[0], ["u"], fun _ _ => some 30⟩⟩).1.host).vars = ["u", "w"]
    ∧ (⟨[0], ["u"], fun _ _ => some 20⟩ : MDataset).vars = ["u"]
    ∧ (["u", "w"] : List String) ≠ ["u"] := by
  refine ⟨rfl, rfl, by simp⟩

/-! ### Claim C9 -/

/-- Claim C9: merging zero sources fails with `EmptySourceSetError`; a merged
record is never returned for an empty source list. -/
theorem combine_datasets_empty :
    combine_datasets [] = Except.error MergeError.emptySourceSet := rfl

/-! ### Helper lemmas about the resolver -/

theorem get_congr {α : Type} (l m : List α) (h : l = m) (i : Nat)
    (hi : i < l.length) (him : i < m.length) : l.get ⟨i, hi⟩ = m.get ⟨i, him⟩ := by
  subst h
  rfl

theorem resolveSorted_length (l : List Deployment) :
    (resolveSorted l).length = l.length := by
  induction l with
  | nil => rfl
  | cons d rest ih => simp [resolveSorted, ih]

theorem resolveSorted_get (l : List Deployment) (i : Nat) (hi : i < l.length)
    (hri : i < (resolveSorted l).length) :
    (resolveSorted l).get ⟨i, hri⟩ =
      ⟨(l.get ⟨i, hi⟩).deploymentNumber, (l.get ⟨i, hi⟩).deployStart,
        if h : i + 1 < l.length then
          effEnd (l.get ⟨i, hi⟩).deployEnd (l.get ⟨i + 1, h⟩).deployStart
        else (l.get ⟨i, hi⟩).deployEnd⟩ := by
  induction l generalizing i with
  | nil => exact absurd hi (Nat.not_lt_zero i)
  | cons d rest ih =>
    cases i with
    | zero =>
      cases rest with
      | nil =>
        have h1 : ¬ (0 + 1 < ([d] : List Deployment).length) := by simp
        simp [resolveSorted, h1]
      | cons next tail =>
        have h1 : 0 + 1 < (d :: next :: tail).length := by simp
        simp [resolveSorted, h1]
    | succ n =>
      cases rest with
      | nil => simp at hi
      | cons next tail =>
        have hn : n < (next :: tail).length := by simpa using hi
        have hrn : n < (resolveSorted (next :: tail)).length := by
          rw [resolveSorted_length]
          exact hn
        have hL : (resolveSorted (d :: next :: tail)).get ⟨n + 1, hri⟩
            = (resolveSorted (next :: tail)).get ⟨n, hrn⟩ := rfl
        rw [hL, ih n hn hrn]
        by_cases h2 : n + 1 < (next :: tail).length
        · have h3 : n + 1 + 1 < (d :: next :: tail).length := by simpa using h2
          rw [dif_pos h2, dif_pos h3]
          rfl
        · have h3 : ¬ (n + 1 + 1 < (d :: next :: tail).length) := by simpa using h2
          rw [dif_neg h2, dif_neg h3]
          rfl

/-! ### Claim C2 -/

/-- Claim C2: for every list of deployments sorted by `deploymentNumber`, the
resolver assigns deployment `i` the effective end `deployEnd_i` when
`deployEnd_i ≤ deployStart_{i+1}` or when it has no successor, and
`deployStart_{i+1}` when `deployEnd_i > deployStart_{i+1}`. -/
theorem resolveIntervals_effective_end (deps : List Deployment)
    (hsort : deps.Sorted (fun a b => a.deploymentNumber ≤ b.deploymentNumber))
    (i : Nat) (hi : i < deps.length) (hri : i < (resolveIntervals deps).length)
    (ee : Int) (he : (deps.get ⟨i, hi⟩).deployEnd = some ee) :
    ((resolveIntervals deps).get ⟨i, hri⟩).effectiveEnd =
      if h : i + 1 < deps.length then
        (if ee ≤ (deps.get ⟨i + 1, h⟩).deployStart then some ee
         else some ((deps.get ⟨i + 1, h⟩).deployStart))
      else some ee := by
  have hres : resolveIntervals deps = resolveSorted deps := by
    unfold resolveIntervals sortDeps
    rw [List.Sorted.insertionSort_eq hsort]
  have hri2 : i < (resolveSorted deps).length := by
    rw [resolveSorted_length]
    exact hi
  rw [get_congr (resolveIntervals deps) (resolveSorted deps) hres i hri hri2,
    resolveSorted_get deps i hi hri2]
  by_cases h : i + 1 < deps.length
  · rw [dif_pos h, dif_pos h]
    show effEnd (deps.get ⟨i, hi⟩).deployEnd (deps.get ⟨i + 1, h⟩).deployStart = _
    rw [he]
    show (if (deps.get ⟨i + 1, h⟩).deployStart < ee then
        some ((deps.get ⟨i + 1, h⟩).deployStart) else some ee) = _
    by_cases h2 : (deps.get ⟨i + 1, h⟩).deployStart < ee
    · rw [if_pos h2, if_neg (by omega)]
    · rw [if_neg h2, if_pos (by omega)]
  · rw [dif_neg h, dif_neg h]
    exact he

/-- Witness for claim C2, at the spec's concrete scenario (dates encoded as
`YYYYMMDD` integers): Deployment 1 `[2016-10-11, 2017-05-01)` overlaps
Deployment 2 `[2017-04-20, 2018-03-28)`, and the resolver assigns
Deployment 1 the effective end 2017-04-20 (Deployment 2's start). -/
theorem resolveIntervals_effective_end_witness :
    ([⟨1, 20161011, some 20170501⟩, ⟨2, 20170420, some 20180328⟩] :
        List Deployment).Sorted (fun a b => a.deploymentNumber ≤ b.deploymentNumber)
    ∧ ((resolveIntervals
          [⟨1, 20161011, some 20170501⟩, ⟨2, 20170420, some 20180328⟩]).get
        ⟨0, by decide⟩).effectiveEnd = some 20170420 := by
  constructor
  · decide
  · rw [resolveIntervals_effective_end
      [⟨1, 20161011, some 20170501⟩, ⟨2, 20170420, some 20180328⟩] (by decide)
      0 (by decide) (by decide) 20170501 rfl]
    norm_num

/-! ### Helper lemmas about `uniqueSorted` and `trim_overlaps` -/

theorem mem_uniqueSorted (l : List Nat) (x : Nat) : x ∈ uniqueSorted l ↔ x ∈ l := by
  unfold uniqueSorted
  rw [List.mem_dedup, List.mem_insertionSort]

theorem uniqueSorted_sorted (l : List Nat) :
    (uniqueSorted l).Sorted (fun a b => a ≤ b) :=
  List.Pairwise.sublist (List.dedup_sublist _) (List.sorted_insertionSort _ l)

theorem dedup_const (l : List Nat) (d : Nat) (hne : l ≠ [])
    (hall : ∀ x ∈ l, x = d) : l.dedup = [d] := by
  induction l with
  | nil => exact absurd rfl hne
  | cons a rest ih =>
    have ha : a = d := hall a (List.mem_cons_self a rest)
    cases rest with
    | nil => simp [ha]
    | cons b tail =>
      have hb : b = d := hall b (List.mem_cons_of_mem a (List.mem_cons_self b tail))
      have hmem : a ∈ b :: tail := by
        rw [ha, ← hb]
        exact List.mem_cons_self b tail
      rw [List.dedup_cons_of_mem hmem]
      exact ih (by simp) (fun x hx => hall x (List.mem_cons_of_mem a hx))

theorem uniqueSorted_const (l : List Nat) (d : Nat) (hne : l ≠ [])
    (hall : ∀ x ∈ l, x = d) : uniqueSorted l = [d] := by
  unfold uniqueSorted
  apply dedup_const
  · intro h
    apply hne
    have hlen := (List.perm_insertionSort (fun a b => a ≤ b) l).length_eq
    rw [h] at hlen
    exact List.length_eq_zero.mp hlen.symm
  · intro x hx
    exact hall x ((List.mem_insertionSort _).mp hx)

theorem uniqueSorted_head_min (l : List Nat) (d : Nat) (hd : d ∈ l)
    (hmin : ∀ x ∈ l, d ≤ x) : ∃ tl, uniqueSorted l = d :: tl := by
  have hmem : d ∈ uniqueSorted l := (mem_uniqueSorted l d).mpr hd
  cases h : uniqueSorted l with
  | nil =>
    rw [h] at hmem
    cases hmem
  | cons a tl =>
    refine ⟨tl, ?_⟩
    have ha : a ∈ l := (mem_uniqueSorted l a).mp (h ▸ List.mem_cons_self a tl)
    have h1 : d ≤ a := hmin a ha
    have hsorted := uniqueSorted_sorted l
    rw [h] at hsorted hmem
    rcases List.mem_cons.mp hmem with h2 | h2
    · rw [h2]
    · have h3 : a ≤ d := List.rel_of_sorted_cons hsorted d h2
      rw [Nat.le_antisymm h3 h1]

theorem trim_eq_filter_of_min (ds : List Sample) (deps : List Deployment)
    (d : Nat) (iv : OwnedInterval)
    (hmem : d ∈ ds.map (fun s => s.deployment))
    (hmin : ∀ x ∈ ds.map (fun s => s.deployment), d ≤ x)
    (hknown : ∀ x ∈ ds.map (fun s => s.deployment),
        (lookupInterval (resolveIntervals deps) x).isSome)
    (hiv : lookupInterval (resolveIntervals deps) d = some iv) :
    trim_overlaps ds deps = Except.ok (ds.filter (fun s => inOwned iv s.time)) := by
  unfold trim_overlaps
  obtain ⟨tl, ht⟩ := uniqueSorted_head_min (ds.map fun s => s.deployment) d hmem hmin
  rw [ht]
  unfold trimWith
  have hany : ((d :: tl).any fun n => (lookupInterval (resolveIntervals deps) n).isNone)
      = false := by
    rw [List.any_eq_false]
    intro x hx
    have hx2 : x ∈ ds.map fun s => s.deployment := by
      rw [← mem_uniqueSorted, ht]
      exact hx
    have := hknown x hx2
    simp [Option.isNone_eq_false_iff, Option.isSome_iff_ne_none] at this ⊢
    exact this
  rw [hany]
  simp only [Bool.false_eq_true, if_false]
  rw [hiv]

theorem trim_unknown_of_lookup_none (ds : List Sample) (deps : List Deployment)
    (s : Sample) (hs : s ∈ ds)
    (hunk : lookupInterval (resolveIntervals deps) s.deployment = none) :
    trim_overlaps ds deps = Except.error TrimError.unknownDeployment := by
  unfold trim_overlaps trimWith
  have hmem : s.deployment ∈ uniqueSorted (ds.map fun x => x.deployment) :=
    (mem_uniqueSorted _ _).mpr (List.mem_map.mpr ⟨s, hs, rfl⟩)
  have hany : ((uniqueSorted (ds.map fun x => x.deployment)).any
      (fun n => (lookupInterval (resolveIntervals deps) n).isNone)) = true := by
    rw [List.any_eq_true]
    exact ⟨s.deployment, hmem, by simp [hunk]⟩
  rw [hany]
  simp

theorem trim_single (ds : List Sample) (deps : List Deployment)
    (d : Nat) (iv : OwnedInterval) (hne : ds ≠ [])
    (hall : ∀ s ∈ ds, s.deployment = d)
    (hiv : lookupInterval (resolveIntervals deps) d = some iv) :
    trim_overlaps ds deps = Except.ok (ds.filter (fun s => inOwned iv s.time)) := by
  apply trim_eq_filter_of_min ds deps d iv
  · cases ds with
    | nil => exact absurd rfl hne
    | cons s rest =>
      rw [← hall s (List.mem_cons_self s rest)]
      exact List.mem_map.mpr ⟨s, List.mem_cons_self s rest, rfl⟩
  · intro x hx
    obtain ⟨s, hs, hxs⟩ := List.mem_map.mp hx
    rw [← hxs, hall s hs]
  · intro x hx
    obtain ⟨s, hs, hxs⟩ := List.mem_map.mp hx
    rw [← hxs, hall s hs, hiv]
    rfl
  · exact hiv

/-! ### Claim C3 -/

/-- Claim C3 (amended): for every nonempty dataset whose samples all carry one
deployment number known to the resolver, trimming returns exactly the samples
whose timestamp `t` satisfies `deployStart ≤ t ≤ effectiveEnd` — the CLOSED
interval selected by the label-based slice `ds.sel(time=slice(start, end))`,
so a sample exactly at `effectiveEnd` is included; samples outside the
interval are silently dropped and the operation never fails on
out-of-interval samples. -/
theorem trim_overlaps_closed_interval (ds : List Sample) (deps : List Deployment)
    (d : Nat) (iv : OwnedInterval) (hne : ds ≠ [])
    (hall : ∀ s ∈ ds, s.deployment = d)
    (hiv : lookupInterval (resolveIntervals deps) d = some iv) :
    trim_overlaps ds deps = Except.ok (ds.filter (fun s => inOwned iv s.time)) :=
  trim_single ds deps d iv hne hall hiv

/-- Witness for claim C3 (amended): deployment 1 owns `[0, 10]`; a dataset with
samples at times 5, 10 and 11 trims to the samples at 5 and 10. -/
theorem trim_overlaps_closed_interval_witness :
    (([⟨5, 1, 0⟩, ⟨10, 1, 1⟩, ⟨11, 1, 2⟩] : List Sample) ≠ []
      ∧ (∀ s ∈ ([⟨5, 1, 0⟩, ⟨10, 1, 1⟩, ⟨11, 1, 2⟩] : List Sample), s.deployment = 1)
      ∧ lookupInterval (resolveIntervals [⟨1, 0, some 10⟩]) 1 = some ⟨1, 0, some 10⟩)
    ∧ trim_overlaps [⟨5, 1, 0⟩, ⟨10, 1, 1⟩, ⟨11, 1, 2⟩] [⟨1, 0, some 10⟩]
        = Except.ok (([⟨5, 1, 0⟩, ⟨10, 1, 1⟩, ⟨11, 1, 2⟩] : List Sample).filter
            (fun s => inOwned ⟨1, 0, some 10⟩ s.time)) := by
  refine ⟨⟨by simp, by decide, rfl⟩, ?_⟩
  exact trim_overlaps_closed_interval [⟨5, 1, 0⟩, ⟨10, 1, 1⟩, ⟨11, 1, 2⟩]
    [⟨1, 0, some 10⟩] 1 ⟨1, 0, some 10⟩ (by simp) (by decide) rfl

/-- Claim C3 counterexample: deployment 1 owns the interval with
`effectiveEnd = 10`, and a sample exactly at timestamp 10 is RETAINED by the
code's inclusive slice, while the claimed half-open interval
`[deployStart, effectiveEnd)` would drop it. -/
theorem trim_overlaps_closed_interval_cex :
    trim_overlaps [⟨10, 1, 42⟩] [⟨1, 0, some 10⟩] = Except.ok [⟨10, 1, 42⟩]
    ∧ ([⟨10, 1, 42⟩] : List Sample).filter
        (fun s => inOwnedSpec ⟨1, 0, some 10⟩ s.time) = []
    ∧ Except.ok ([⟨10, 1, 42⟩] : List Sample) ≠
        (Except.ok ([] : List Sample) : Except TrimError (List Sample)) := by
  refine ⟨rfl, rfl, by simp⟩

/-! ### Claim C5 -/

/-- Claim C5 (amended): the trim operation does NOT fail on a dataset spanning
more than one deployment value: when every deployment value in the dataset is
known to the resolver, it silently trims to the owned interval of the
smallest deployment value present (`np.unique` sorts, `.values[0]` takes the
first row) — no `AmbiguousDeploymentError` exists in the code. -/
theorem trim_overlaps_multi_deployment (ds : List Sample) (deps : List Deployment)
    (d : Nat) (iv : OwnedInterval)
    (hmem : d ∈ ds.map (fun s => s.deployment))
    (hmin : ∀ x ∈ ds.map (fun s => s.deployment), d ≤ x)
    (hknown : ∀ x ∈ ds.map (fun s => s.deployment),
        (lookupInterval (resolveIntervals deps) x).isSome)
    (hiv : lookupInterval (resolveIntervals deps) d = some iv) :
    trim_overlaps ds deps = Except.ok (ds.filter (fun s => inOwned iv s.time)) :=
  trim_eq_filter_of_min ds deps d iv hmem hmin hknown hiv

/-- Witness for claim C5 (amended) at a concrete two-deployment dataset. -/
theorem trim_overlaps_multi_deployment_witness :
    ((1 : Nat) ∈ ([⟨0, 1, 7⟩, ⟨25, 2, 8⟩] : List Sample).map (fun s => s.deployment)
      ∧ lookupInterval (resolveIntervals [⟨1, 0, some 10⟩, ⟨2, 20, some 30⟩]) 1
          = some ⟨1, 0, some 10⟩)
    ∧ trim_overlaps [⟨0, 1, 7⟩, ⟨25, 2, 8⟩] [⟨1, 0, some 10⟩, ⟨2, 20, some 30⟩]
        = Except.ok (([⟨0, 1, 7⟩, ⟨25, 2, 8⟩] : List Sample).filter
            (fun s => inOwned ⟨1, 0, some 10⟩ s.time)) := by
  refine ⟨⟨by decide, rfl⟩, ?_⟩
  exact trim_overlaps_multi_deployment [⟨0, 1, 7⟩, ⟨25, 2, 8⟩]
    [⟨1, 0, some 10⟩, ⟨2, 20, some 30⟩] 1 ⟨1, 0, some 10⟩
    (by decide) (by decide) (by decide) rfl

/-- Claim C5 counterexample: a dataset carrying the two distinct deployment
values 1 and 2 is trimmed successfully (to deployment 1's interval, dropping
the deployment-2 sample at time 25) instead of failing. -/
theorem trim_overlaps_multi_deployment_cex :
    uniqueSorted (([⟨0, 1, 7⟩, ⟨25, 2, 8⟩] : List Sample).map (fun s => s.deployment))
        = [1, 2]
    ∧ trim_overlaps [⟨0, 1, 7⟩, ⟨25, 2, 8⟩] [⟨1, 0, some 10⟩, ⟨2, 20, some 30⟩]
        = Except.ok [⟨0, 1, 7⟩] := by
  refine ⟨by decide, rfl⟩

/-! ### Claim C6 -/

/-- Claim C6: a dataset tagged with a deployment number absent from the
supplied deployment metadata makes the trim operation fail (the pandas
`KeyError` raised by the metadata lookup, modelled as
`TrimError.unknownDeployment`). -/
theorem trim_overlaps_unknown_deployment (ds : List Sample) (deps : List Deployment)
    (s : Sample) (hs : s ∈ ds)
    (hunk : lookupInterval (resolveIntervals deps) s.deployment = none) :
    trim_overlaps ds deps = Except.error TrimError.unknownDeployment :=
  trim_unknown_of_lookup_none ds deps s hs hunk

/-- Witness for claim C6 at the spec's concrete scenario: a dataset tagged
`deployment = 5` when only deployments 1 through 4 are known. -/
theorem trim_overlaps_unknown_deployment_witness :
    ((⟨0, 5, 0⟩ : Sample) ∈ ([⟨0, 5, 0⟩] : List Sample)
      ∧ lookupInterval
          (resolveIntervals
            [⟨1, 0, some 1⟩, ⟨2, 2, some 3⟩, ⟨3, 4, some 5⟩, ⟨4, 6, some 7⟩])
          (⟨0, 5, 0⟩ : Sample).deployment = none)
    ∧ trim_overlaps [⟨0, 5, 0⟩]
        [⟨1, 0, some 1⟩, ⟨2, 2, some 3⟩, ⟨3, 4, some 5⟩, ⟨4, 6, some 7⟩]
        = Except.error TrimError.unknownDeployment := by
  refine ⟨⟨by decide, by decide⟩, ?_⟩
  exact trim_overlaps_unknown_deployment [⟨0, 5, 0⟩]
    [⟨1, 0, some 1⟩, ⟨2, 2, some 3⟩, ⟨3, 4, some 5⟩, ⟨4, 6, some 7⟩]
    ⟨0, 5, 0⟩ (by decide) (by decide)

/-! ### Claim C8 -/

/-- Claim C8 (amended): trimming is idempotent provided the once-trimmed
result is nonempty (and the dataset carries a single deployment value):
re-trimming the result returns it unchanged.  When the first trim drops every
sample, a second trim fails with an `IndexError` (`.values[0]` of an empty
selection) instead of returning the empty dataset, so the unrestricted claim
is false. -/
theorem trim_overlaps_idempotent (ds out : List Sample) (deps : List Deployment)
    (d : Nat) (hall : ∀ s ∈ ds, s.deployment = d)
    (hok : trim_overlaps ds deps = Except.ok out) (hne : out ≠ []) :
    trim_overlaps out deps = Except.ok out := by
  have hdsne : ds ≠ [] := by
    intro h
    rw [h] at hok
    have hempty : trim_overlaps ([] : List Sample) deps
        = Except.error TrimError.emptyDataset := rfl
    rw [hempty] at hok
    exact Except.noConfusion hok
  cases hiv : lookupInterval (resolveIntervals deps) d with
  | none =>
    obtain ⟨s, hs⟩ : ∃ s, s ∈ ds := by
      cases ds with
      | nil => exact absurd rfl hdsne
      | cons a rest => exact ⟨a, List.mem_cons_self a rest⟩
    have := trim_unknown_of_lookup_none ds deps s hs (by rw [hall s hs]; exact hiv)
    rw [this] at hok
    exact Except.noConfusion hok
  | some iv =>
    have h1 := trim_single ds deps d iv hdsne hall hiv
    rw [h1] at hok
    have hout : out = ds.filter (fun s => inOwned iv s.time) :=
      Except.ok.inj hok.symm
    have hall2 : ∀ s ∈ out, s.deployment = d := by
      intro s hsmem
      rw [hout] at hsmem
      exact hall s (List.mem_of_mem_filter hsmem)
    have h2 := trim_single out deps d iv hne hall2 hiv
    rw [h2]
    congr 1
    rw [hout]
    apply List.filter_eq_self.mpr
    intro s hsmem
    exact (List.mem_filter.mp hsmem).2

/-- Witness for claim C8 (amended): the once-trimmed result `[⟨5, 1, 9⟩]` is
nonempty and re-trimming returns it unchanged. -/
theorem trim_overlaps_idempotent_witness :
    ((∀ s ∈ ([⟨5, 1, 9⟩, ⟨99, 1, 9⟩] : List Sample), s.deployment = 1)
      ∧ trim_overlaps [⟨5, 1, 9⟩, ⟨99, 1, 9⟩] [⟨1, 0, some 10⟩]
          = Except.ok [⟨5, 1, 9⟩]
      ∧ ([⟨5, 1, 9⟩] : List Sample) ≠ [])
    ∧ trim_overlaps [⟨5, 1, 9⟩] [⟨1, 0, some 10⟩] = Except.ok [⟨5, 1, 9⟩] := by
  refine ⟨⟨by decide, rfl, by simp⟩, ?_⟩
  exact trim_overlaps_idempotent [⟨5, 1, 9⟩, ⟨99, 1, 9⟩] [⟨5, 1, 9⟩]
    [⟨1, 0, some 10⟩] 1 (by decide) rfl (by simp)

/-- Claim C8 counterexample: the first trim succeeds and returns the empty
dataset (the only sample, at time 50, lies outside deployment 1's owned
interval `[0, 10]`), but trimming that result again fails with an
`IndexError` (`TrimError.emptyDataset`) rather than returning an identical
dataset. -/
theorem trim_overlaps_idempotent_cex :
    trim_overlaps [⟨50, 1, 3⟩] [⟨1, 0, some 10⟩] = Except.ok []
    ∧ trim_overlaps ([] : List Sample) [⟨1, 0, some 10⟩]
        = Except.error TrimError.emptyDataset := by
  refine ⟨rfl, rfl⟩

/-! ### Helper lemmas for claim C4 -/

theorem inOwned_start_le (iv : OwnedInterval) (t : Int) (h : inOwned iv t = true) :
    iv.start ≤ t := by
  simp only [inOwned, Bool.and_eq_true, decide_eq_true_eq] at h
  exact h.1

theorem inOwned_le_end (iv : OwnedInterval) (t e : Int)
    (hE : iv.effectiveEnd = some e) (h : inOwned iv t = true) : t ≤ e := by
  simp only [inOwned, hE, Bool.and_eq_true, decide_eq_true_eq] at h
  exact h.2

theorem resolveSorted_start (l : List Deployment) (B : OwnedInterval)
    (hB : B ∈ resolveSorted l) : ∃ dep ∈ l, B.start = dep.deployStart := by
  induction l with
  | nil => cases hB
  | cons d rest ih =>
    cases rest with
    | nil =>
      have hB2 : B ∈ [(⟨d.deploymentNumber, d.deployStart, d.deployEnd⟩ :
          OwnedInterval)] := hB
      rcases List.mem_cons.mp hB2 with h | h
      · exact ⟨d, List.mem_cons_self d _, by rw [h]⟩
      · cases h
    | cons next tail =>
      have hB2 : B ∈ (⟨d.deploymentNumber, d.deployStart,
          effEnd d.deployEnd next.deployStart⟩ : OwnedInterval)
          :: resolveSorted (next :: tail) := hB
      rcases List.mem_cons.mp hB2 with h | h
      · exact ⟨d, List.mem_cons_self d _, by rw [h]⟩
      · obtain ⟨dep, hdep, hstart⟩ := ih h
        exact ⟨dep, List.mem_cons_of_mem d hdep, hstart⟩

theorem resolveSorted_pairwise : ∀ (l : List Deployment),
    l.Pairwise (fun a b => a.deployStart ≤ b.deployStart) →
    (∀ a ∈ l, a.deployEnd ≠ none) →
    (resolveSorted l).Pairwise (fun A B =>
      (∀ e, A.effectiveEnd = some e → e ≤ B.start)
      ∧ ∀ t, inOwned A t = true → inOwned B t = true → t = B.start)
  | [], _, _ => List.Pairwise.nil
  | d :: rest, hmono, hends => by
    apply List.Pairwise.cons
    · intro B hB
      cases rest with
      | nil => exact absurd hB (by simp [resolveSorted])
      | cons next tail =>
        obtain ⟨dep, hdep, hBstart⟩ := resolveSorted_start (next :: tail) B hB
        have hnsB : next.deployStart ≤ B.start := by
          rw [hBstart]
          rcases List.mem_cons.mp hdep with h | h
          · rw [h]
          · exact List.rel_of_pairwise_cons (List.Pairwise.of_cons hmono) h
        cases hde : d.deployEnd with
        | none => exact absurd hde (hends d (List.mem_cons_self d _))
        | some ee =>
          have hEnd : ∃ e0, effEnd (some ee) next.deployStart = some e0
              ∧ e0 ≤ B.start := by
            have hi : effEnd (some ee) next.deployStart
                = if next.deployStart < ee then some next.deployStart else some ee := rfl
            rw [hi]
            by_cases hlt : next.deployStart < ee
            · rw [if_pos hlt]
              exact ⟨next.deployStart, rfl, hnsB⟩
            · rw [if_neg hlt]
              exact ⟨ee, rfl, le_trans (by omega) hnsB⟩
          obtain ⟨e0, he0, he0le⟩ := hEnd
          constructor
          · intro e hEe
            have hEe2 : effEnd (some ee) next.deployStart = some e := hEe
            rw [he0] at hEe2
            exact Option.some.inj hEe2 ▸ he0le
          · intro t h1 h2
            have hA : (⟨d.deploymentNumber, d.deployStart,
                effEnd (some ee) next.deployStart⟩ : OwnedInterval).effectiveEnd
                = some e0 := he0
            have h1b : inOwned (⟨d.deploymentNumber, d.deployStart,
                effEnd (some ee) next.deployStart⟩ : OwnedInterval) t = true := h1
            have ht1 : t ≤ e0 := inOwned_le_end _ t e0 hA h1b
            have ht2 : B.start ≤ t := inOwned_start_le B t h2
            omega
    · exact resolveSorted_pairwise rest (List.Pairwise.of_cons hmono)
        (fun a ha => hends a (List.mem_cons_of_mem d ha))

/-! ### Claim C4 -/

/-- Claim C4 (amended): for deployments sorted by `deploymentNumber` with
monotonically non-decreasing `deployStart` and recorded end dates, the
computed intervals are ordered (each effective end is at most every later
interval's start), but under the code's inclusive time-slice two intervals may
BOTH own their shared boundary timestamp: any timestamp owned by two intervals
is exactly the later interval's start. -/
theorem resolveIntervals_ordered_disjoint (deps : List Deployment)
    (hsort : deps.Sorted (fun a b => a.deploymentNumber ≤ b.deploymentNumber))
    (hmono : deps.Pairwise (fun a b => a.deployStart ≤ b.deployStart))
    (hends : ∀ a ∈ deps, a.deployEnd ≠ none) :
    (resolveIntervals deps).Pairwise (fun A B =>
      (∀ e, A.effectiveEnd = some e → e ≤ B.start)
      ∧ ∀ t, inOwned A t = true → inOwned B t = true → t = B.start) := by
  have hres : resolveIntervals deps = resolveSorted deps := by
    unfold resolveIntervals sortDeps
    rw [List.Sorted.insertionSort_eq hsort]
  rw [hres]
  exact resolveSorted_pairwise deps hmono hends

/-- Witness for claim C4 (amended) at the two overlapping deployments
`[0, 10]` and `[5, 20]`: a timestamp owned by both resolved intervals must be
the second interval's start. -/
theorem resolveIntervals_ordered_disjoint_witness :
    (([⟨1, 0, some 10⟩, ⟨2, 5, some 20⟩] : List Deployment).Sorted
        (fun a b => a.deploymentNumber ≤ b.deploymentNumber)
      ∧ ([⟨1, 0, some 10⟩, ⟨2, 5, some 20⟩] : List Deployment).Pairwise
          (fun a b => a.deployStart ≤ b.deployStart)
      ∧ ∀ a ∈ ([⟨1, 0, some 10⟩, ⟨2, 5, some 20⟩] : List Deployment),
          a.deployEnd ≠ none)
    ∧ ∀ t, inOwned ⟨1, 0, some 5⟩ t = true → inOwned ⟨2, 5, some 20⟩ t = true →
        t = (⟨2, 5, some 20⟩ : OwnedInterval).start := by
  refine ⟨⟨by decide, by decide, by decide⟩, ?_⟩
  have h := resolveIntervals_ordered_disjoint [⟨1, 0, some 10⟩, ⟨2, 5, some 20⟩]
    (by decide) (by decide) (by decide)
  have h2 : resolveIntervals [⟨1, 0, some 10⟩, ⟨2, 5, some 20⟩]
      = [⟨1, 0, some 5⟩, ⟨2, 5, some 20⟩] := rfl
  rw [h2] at h
  exact fun t h5 h6 =>
    (List.rel_of_pairwise_cons h (List.mem_cons_self _ _)).2 t h5 h6

/-- Claim C4 counterexample: the deployments `[0, 10]` and `[5, 20]` (starts
non-decreasing) resolve to the intervals `[0, 5]` and `[5, 20]`, and the
boundary timestamp 5 belongs to BOTH — a sample at time 5 is retained by the
trim whether it is tagged deployment 1 or deployment 2, so the intervals are
not pairwise disjoint. -/
theorem resolveIntervals_ordered_disjoint_cex :
    resolveIntervals [⟨1, 0, some 10⟩, ⟨2, 5, some 20⟩]
        = [⟨1, 0, some 5⟩, ⟨2, 5, some 20⟩]
    ∧ inOwned ⟨1, 0, some 5⟩ 5 = true
    ∧ inOwned ⟨2, 5, some 20⟩ 5 = true
    ∧ trim_overlaps [⟨5, 1, 0⟩] [⟨1, 0, some 10⟩, ⟨2, 5, some 20⟩]
        = Except.ok [⟨5, 1, 0⟩]
    ∧ trim_overlaps [⟨5, 2, 0⟩] [⟨1, 0, some 10⟩, ⟨2, 5, some 20⟩]
        = Except.ok [⟨5, 2, 0⟩] := by
  refine ⟨rfl, rfl, rfl, rfl, rfl⟩

end Carbonate
